import Mathlib

/-!
Verification of the log-structured key-value store.

The embedding models, from the source:
* the error type `KvsError` (src/lib.rs, lines 10-19);
* the on-disk record type `KvRecord` and its self-delimiting codec
  (the codec itself is the external collaborator `rmp_serde`; it is
  modelled here as a concrete self-delimiting, injective, streaming
  encoding, which is exactly the contract the store relies on);
* the concurrent index (`dashmap::DashMap` / `HashMap`), modelled as an
  association list with map semantics;
* the storage engine `engine::store::KvStore` (src/src/engine/store.rs):
  `set`, `get`, `remove`, `open` (log replay) and the stubbed
  `compact_file`;
* the older engine `store::KvStore` (src/src/lib.rs, module `store`):
  `get`, `remove`, `write_command`;
* handle cloning (`impl Clone for KvStore`, src/src/engine/store.rs,
  lines 82-97), over an explicit heap of atomic counter cells;
* engine selection (`parse_kv_config`, src/src/bin/kvs-server.rs,
  lines 32-60);
* the shared-queue thread pool (src/src/thread_pool/shared_queue.rs).
-/

namespace KvsSpec

/-- Model of `KvsError` (src/lib.rs lines 10-19).  Payload strings carry the
message of the underlying library error; the model fills them with the
name of the failing call site. -/
inductive KvsError where
  | FileListEmpty
  | WrongEngine
  | SerializationError (msg : String)
  | IOError (msg : String)
  | NonExistantKey
  | ThreadPoolBuildError (msg : String)
  | Other
deriving DecidableEq, Repr

/-- Model of `KvRecord<K, V>` (src/src/engine/store.rs lines 41-45), instantiated
at `K = V = String` as in the binaries: `Set((K, V))` or `Rm(K)`. -/
inductive KvRecord where
  | Set (k v : String)
  | Rm (k : String)
deriving DecidableEq, Repr

/-- The key a record talks about. -/
def KvRecord.key : KvRecord → String
  | .Set k _ => k
  | .Rm k => k

/-- Modelled from the spec (§4.1): the external `rmp_serde` codec is a
self-delimiting binary serialization.  A string is framed as its length
followed by its character codes. -/
def encStr (s : String) : List Nat :=
  s.data.length :: s.data.map Char.toNat

/-- Modelled from the spec (§4.1): `rmp_serde::to_vec` on a `KvRecord`.
A one-byte tag distinguishes the variants; fields follow framed. -/
def encode : KvRecord → List Nat
  | .Set k v => 0 :: (encStr k ++ encStr v)
  | .Rm k => 1 :: encStr k

/-- Decode one framed string from the front of a byte stream, returning
it and the remaining bytes. -/
def decStr (bs : List Nat) : Option (String × List Nat) :=
  match bs with
  | [] => none
  | n :: rest =>
    if n ≤ rest.length then
      some (String.mk ((rest.take n).map Char.ofNat), rest.drop n)
    else none

/-- Modelled from the spec (§4.1): streaming decode of one record,
returning the record and the number of bytes consumed
(`rmp_serde::Deserializer::position` delta in `deserialize_file`). -/
def decodeOne (bs : List Nat) : Option (KvRecord × Nat) :=
  match bs with
  | 0 :: rest =>
    match decStr rest with
    | some (k, rest2) =>
      match decStr rest2 with
      | some (v, rest3) => some (.Set k v, bs.length - rest3.length)
      | none => none
    | none => none
  | 1 :: rest =>
    match decStr rest with
    | some (k, rest2) => some (.Rm k, bs.length - rest2.length)
    | none => none
  | _ => none

/-- Model of `rmp_serde::from_slice` on a buffer: decode one record. -/
def fromSlice (bs : List Nat) : Option KvRecord :=
  (decodeOne bs).map (·.1)

/-- Model of `ValueData` (src/src/engine/store.rs lines 47-50): the size and
offset of a record inside the active log file. -/
structure ValueData where
  size : Nat
  offset : Nat
deriving DecidableEq, Repr

/-- The in-memory index, `DashMap<K, ValueData>` / `HashMap<K, ValueData>`
modelled as an association list with map semantics. -/
abbrev Index := List (String × ValueData)

/-- Model of `index.get(&key)`. -/
def indexLookup (idx : Index) (k : String) : Option ValueData :=
  (idx.find? fun e => e.1 == k).map (·.2)

/-- Model of `index.insert(key, value_data)`, returning the map together with the
previous value for the key, if any. -/
def indexInsert (idx : Index) (k : String) (vd : ValueData) :
    Index × Option ValueData :=
  ((k, vd) :: idx.filter (fun e => !(e.1 == k)), indexLookup idx k)

/-- Model of `index.remove(&key)`, returning the map together with the previous
value for the key, if any. -/
def indexRemove (idx : Index) (k : String) : Index × Option ValueData :=
  (idx.filter (fun e => !(e.1 == k)), indexLookup idx k)

/-- The shared state behind an `engine::store::KvStore` handle
(src/src/engine/store.rs lines 69-80): the bytes of the active log file
(behind both the buffered writer and the positional reader), the
writer's append position, the index, and the `uncompressed_bytes`
counter. -/
structure KvStoreState where
  file : List Nat
  position : Nat
  index : Index
  uncompressedBytes : Nat
deriving DecidableEq, Repr

/-- Model of `File::read_exact_at(buf, offset)` with `buf.len() = size` on a file
with the given bytes: succeeds exactly when the range is within the
file, returning those bytes. -/
def readExactAt (file : List Nat) (offset size : Nat) : Option (List Nat) :=
  if offset + size ≤ file.length then some ((file.drop offset).take size)
  else none

namespace KvStore

/-- Model of `KvStore::set` (src/src/engine/store.rs lines 104-118), success
path: serialize `Set((key, val))`, append at the writer position,
advance the position, insert into the index, and if the key had a
previous record add its size to `uncompressed_bytes`. -/
def set (st : KvStoreState) (key val : String) : KvStoreState :=
  let serialized := encode (.Set key val)
  let value_data : ValueData := ⟨serialized.length, st.position⟩
  let file := st.file ++ serialized
  let position := st.position + serialized.length
  let p := indexInsert st.index key value_data
  match p.2 with
  | some previous_value =>
    ⟨file, position, p.1, st.uncompressedBytes + previous_value.size⟩
  | none => ⟨file, position, p.1, st.uncompressedBytes⟩

/-- Model of `KvStore::get` (src/src/engine/store.rs lines 119-133): look the key
up in the index, positionally read `size` bytes at `offset`, decode; a
`Set` yields its value, any other record (the `_ => Ok(None)` arm)
yields `None`. -/
def get (st : KvStoreState) (key : String) : Except KvsError (Option String) :=
  match indexLookup st.index key with
  | some value_data =>
    match readExactAt st.file value_data.offset value_data.size with
    | none => .error (.IOError "read_exact_at")
    | some buf =>
      match fromSlice buf with
      | none => .error (.SerializationError "from_slice")
      | some (.Set _ v) => .ok (some v)
      | some _ => .ok none
  | none => .ok none

/-- Model of `KvStore::remove` (src/src/engine/store.rs lines 134-150), success
path of the lock: remove the key from the index; if it was present,
append a `Rm` tombstone and add the previous record's size plus the
tombstone's size to `uncompressed_bytes`, else fail with
`NonExistantKey`. -/
def remove (st : KvStoreState) (key : String) : Except KvsError KvStoreState :=
  let p := indexRemove st.index key
  match p.2 with
  | some previous_value =>
    let serialized := encode (.Rm key)
    let value_data : ValueData := ⟨serialized.length, st.position⟩
    .ok ⟨st.file ++ serialized, st.position + serialized.length, p.1,
      st.uncompressedBytes + (previous_value.size + value_data.size)⟩
  | none => .error .NonExistantKey

/-- Model of `KvStore::compact_file` (src/src/engine/store.rs lines 256-289): the
whole body is commented out in the source; the function takes `&self`
and returns `Ok(())`, leaving the state untouched. -/
def compactFile (st : KvStoreState) : KvStoreState × Except KvsError Unit :=
  (st, .ok ())

end KvStore

/-- One iteration of the replay loop in `KvStore::open` via
`deserialize_file` (src/src/engine/store.rs lines 205-237): while the
position is below the file length, decode one record, record its
`(offset, size)`, and update the index — both a `Set` and a `Rm` record
`insert` their key (the `Rm` arm also calls `index.insert`).  `fuel`
bounds the iteration count; each step consumes at least one byte. -/
def replayAux (bytes : List Nat) : Nat → Nat → Index → Option Index
  | 0, _, _ => none
  | fuel + 1, position, idx =>
    if position < bytes.length then
      match decodeOne (bytes.drop position) with
      | none => none
      | some (r, n) =>
        let value_data : ValueData := ⟨n, position⟩
        replayAux bytes fuel (position + n)
          (match r with
           | .Set k _ => (indexInsert idx k value_data).1
           | .Rm k => (indexInsert idx k value_data).1)
    else some idx

/-- The index reconstructed by `KvStore::open`'s replay of the log. -/
def replay (bytes : List Nat) : Option Index :=
  replayAux bytes (bytes.length + 1) 0 []

/-- Model of `KvStore::open` (src/src/engine/store.rs lines 225-254) on a
database directory whose log content is the single active file with the
given bytes: replay it into a fresh index, position the appending
writer at the file end, and start
`uncompressed_bytes` at 0.  `None` models the `Err` return when a
record fails to decode. -/
def openStore (file : List Nat) : Option KvStoreState :=
  (replay file).map fun idx => ⟨file, file.length, idx, 0⟩

/-- The byte content of a log that is the concatenation of the given
records. -/
def encodeAll : List KvRecord → List Nat
  | [] => []
  | r :: rs => encode r ++ encodeAll rs

/-- What the replay loop computes on a record list, position by
position: every record (Set and Rm alike) inserts its key. -/
def replayFold (idx : Index) (pos : Nat) : List KvRecord → Index
  | [] => idx
  | r :: rest =>
    replayFold (indexInsert idx r.key ⟨(encode r).length, pos⟩).1
      (pos + (encode r).length) rest

/-- The last record of the list whose key is `k`, together with its
location, when positions start at `pos`. -/
def lastRecEntry : List KvRecord → Nat → String → Option (KvRecord × ValueData)
  | [], _, _ => none
  | r :: rest, pos, k =>
    match lastRecEntry rest (pos + (encode r).length) k with
    | some e => some e
    | none =>
      if r.key = k then some (r, ⟨(encode r).length, pos⟩) else none

/-- The last record of the log whose key is `k`. -/
def lastRec (recs : List KvRecord) (k : String) : Option KvRecord :=
  (lastRecEntry recs 0 k).map (·.1)

/-- A client-visible operation on the engine handle. -/
inductive Op where
  | setOp (k v : String)
  | rmOp (k : String)
deriving DecidableEq, Repr

/-- Whether an operation writes (sets or removes) the given key. -/
def Op.touches (op : Op) (k : String) : Bool :=
  match op with
  | .setOp k' _ => k' == k
  | .rmOp k' => k' == k

/-- The specification-level map after one operation: `set` binds the
key, a `remove` clears it (`remove` of an absent key fails and leaves
the map unchanged, which coincides with clearing an absent key). -/
def specMapStep (m : String → Option String) : Op → String → Option String
  | .setOp k v => fun x => if x = k then some v else m x
  | .rmOp k => fun x => if x = k then none else m x

/-- The specification-level key-value map after a list of operations,
starting from the empty store. -/
def specMap (ops : List Op) : String → Option String :=
  ops.foldl specMapStep (fun _ => none)

/-- Run one operation on the engine model; a failed `remove`
(`NonExistantKey`) leaves the state unchanged. -/
def exec (st : KvStoreState) : Op → KvStoreState
  | .setOp k v => KvStore.set st k v
  | .rmOp k =>
    match KvStore.remove st k with
    | .ok st₂ => st₂
    | .error _ => st

/-- The state of a store opened on an empty directory: empty file,
position 0, empty index, zero counter. -/
def initState : KvStoreState := ⟨[], 0, [], 0⟩

/-- Run a list of operations from the freshly opened empty store. -/
def runOps (ops : List Op) : KvStoreState := ops.foldl exec initState

/-- The coupling invariant between an engine state reached by running
operations, the specification-level map, and the trace of records that
were appended to the log. -/
def goodState (st : KvStoreState) (m : String → Option String)
    (recs : List KvRecord) : Prop :=
  st.file = encodeAll recs ∧
  st.position = st.file.length ∧
  (∀ k v, m k = some v →
    ∃ off, indexLookup st.index k = some ⟨(encode (.Set k v)).length, off⟩ ∧
      off + (encode (.Set k v)).length ≤ st.file.length ∧
      (st.file.drop off).take (encode (.Set k v)).length = encode (.Set k v)) ∧
  (∀ k, m k = none → indexLookup st.index k = none) ∧
  (∀ k, match m k with
    | some v => lastRec recs k = some (.Set k v)
    | none => lastRec recs k = none ∨ lastRec recs k = some (.Rm k))

/-- State behind `store::KvStore` (src/lib.rs lines 260-276), the older
engine in module `store`, in the single-active-file regime (every
`ValueData.file_path` equals the active file, so locations carry only
offset and size): the active file's bytes, `bytes_in_last_file`, and
`key_map`. -/
structure LibState where
  activeFile : List Nat
  bytesInLastFile : Nat
  keyMap : Index
deriving DecidableEq, Repr

namespace LibStore

/-- Model of `store::KvStore::write_command` (src/lib.rs lines
397-418): serialize the command, insert the key into `key_map` at the
current end-of-file location — for both `Set` and `Rm` commands — then
append and advance `bytes_in_last_file`.  Finally the source calls
`self.alloc_new_file_if_needed()` and, on error, only prints it
(`if let Err(err) = ... { println! }`) and still returns `Ok`; that
call's file-system effects are passed in as the oracle `alloc`. -/
def writeCommand (st : LibState) (command : KvRecord) (key : String)
    (alloc : LibState → Except KvsError LibState) : Except KvsError LibState :=
  let serialized := encode command
  let value_data : ValueData := ⟨serialized.length, st.bytesInLastFile⟩
  let st₂ : LibState := ⟨st.activeFile ++ serialized,
    st.bytesInLastFile + serialized.length,
    (indexInsert st.keyMap key value_data).1⟩
  match alloc st₂ with
  | .error _ => .ok st₂
  | .ok st₃ => .ok st₃

/-- Model of `store::KvStore::get` (src/lib.rs lines 287-305): look the
key up in `key_map`, seek-and-read the record's bytes, decode; a `Set`
yields its value, any other record yields `None` (`_ => Ok(None)`). -/
def get (st : LibState) (key : String) : Except KvsError (Option String) :=
  match indexLookup st.keyMap key with
  | some value_data =>
    match readExactAt st.activeFile value_data.offset value_data.size with
    | none => .error (.IOError "read_exact")
    | some buf =>
      match fromSlice buf with
      | none => .error (.SerializationError "from_slice")
      | some (.Set _ v) => .ok (some v)
      | some _ => .ok none
  | none => .ok none

/-- Model of `store::KvStore::set` (src/lib.rs lines 283-286). -/
def set (st : LibState) (key val : String)
    (alloc : LibState → Except KvsError LibState) : Except KvsError LibState :=
  writeCommand st (.Set key val) key alloc

/-- Model of `store::KvStore::remove` (src/lib.rs lines 306-313):
`if let Ok(Some(_val)) = self.get(key.clone())` guards the tombstone
write; every other outcome of `get` — including an `Err` — falls to
the `else` branch returning `NonExistantKey`. -/
def remove (st : LibState) (key : String)
    (alloc : LibState → Except KvsError LibState) : Except KvsError LibState :=
  match get st key with
  | .ok (some _) => writeCommand st (.Rm key) key alloc
  | _ => .error .NonExistantKey

/-- The `alloc_new_file_if_needed` oracle for the below-threshold case
(`bytes_in_last_file ≤ 1_000_000`): the call changes nothing and
succeeds. -/
def allocOk : LibState → Except KvsError LibState := fun st => .ok st

end LibStore

/-- The injected outcomes of the fallible calls inside an engine
operation: `rmp_serde::to_vec`, `Mutex::lock` (poisoning),
`write_all`/`flush`/`read_exact_at`, and `rmp_serde::from_slice`.
These calls can fail for environmental reasons; the flags say which of
them fail during the modelled operation. -/
structure FailEnv where
  encodeFails : Bool
  lockPoisoned : Bool
  ioFails : Bool
  decodeFails : Bool
deriving DecidableEq, Repr

namespace KvStore

/-- Model of `KvStore::set` (src/src/engine/store.rs lines 104-118)
with its fallible calls made explicit, in source order:
`rmp_serde::to_vec(..)?` (encode error converts to
`SerializationError`), `self.writer.lock()?` (a `PoisonError` converts
to `SerializationError`), then `write_all`/`flush` (`?` on `Io`);
afterwards the infallible index update. -/
def setE (env : FailEnv) (st : KvStoreState) (key val : String) :
    Except KvsError KvStoreState :=
  if env.encodeFails then .error (.SerializationError "to_vec")
  else if env.lockPoisoned then .error (.SerializationError "lock poisoned")
  else if env.ioFails then .error (.IOError "write_all")
  else .ok (set st key val)

/-- Model of `KvStore::get` (src/src/engine/store.rs lines 119-133)
with its fallible calls made explicit: if the key is absent no fallible
call happens; otherwise `read_exact_at(..)?` can fail with `Io` and
`from_slice(..)?` with `Serialization`. -/
def getE (env : FailEnv) (st : KvStoreState) (key : String) :
    Except KvsError (Option String) :=
  match indexLookup st.index key with
  | some value_data =>
    if env.ioFails then .error (.IOError "read_exact_at")
    else if env.decodeFails then .error (.SerializationError "from_slice")
    else
      match readExactAt st.file value_data.offset value_data.size with
      | none => .error (.IOError "read_exact_at")
      | some buf =>
        match fromSlice buf with
        | none => .error (.SerializationError "from_slice")
        | some (.Set _ v) => .ok (some v)
        | some _ => .ok none
  | none => .ok none

/-- Model of `KvStore::remove` (src/src/engine/store.rs lines 134-150)
with its fallible calls made explicit, in source order:
`self.writer.lock()?` first (poisoning converts to
`SerializationError`), then `index.remove`; only when the key was
present are `to_vec(..)?` and `write_all`/`flush` reached. -/
def removeE (env : FailEnv) (st : KvStoreState) (key : String) :
    Except KvsError KvStoreState :=
  if env.lockPoisoned then .error (.SerializationError "lock poisoned")
  else
    match (indexRemove st.index key).2 with
    | some _ =>
      if env.encodeFails then .error (.SerializationError "to_vec")
      else if env.ioFails then .error (.IOError "write_all")
      else remove st key
    | none => .error .NonExistantKey

end KvStore

/-- A handle of `engine::store::KvStore` (src/src/engine/store.rs lines
69-80) seen through its shared references: `path`, `writer`, `reader`
and `index` sit behind `Arc`s (modelled as cell identities), while
`uncompressed_bytes` is a plain `AtomicU64` field owned by the handle
itself — `counterCell` names this handle's own counter cell. -/
structure KvStoreHandle where
  writerRef : Nat
  readerRef : Nat
  indexRef : Nat
  counterCell : Nat
deriving DecidableEq, Repr

/-- The heap of `AtomicU64` counter cells, by cell identity; `nextId`
is the next fresh cell. -/
structure CounterHeap where
  counters : List (Nat × Nat)
  nextId : Nat
deriving DecidableEq, Repr

/-- An atomic `load(Ordering::SeqCst)` of a counter cell. -/
def counterLoad (h : CounterHeap) (cell : Nat) : Nat :=
  (((h.counters.find? fun e => e.1 == cell).map (·.2)).getD 0)

/-- An atomic `fetch_add(n, Ordering::SeqCst)` on a counter cell. -/
def counterFetchAdd (h : CounterHeap) (cell : Nat) (n : Nat) : CounterHeap :=
  ⟨h.counters.map fun e => if e.1 == cell then (e.1, e.2 + n) else e, h.nextId⟩

/-- Model of `impl Clone for KvStore` (src/src/engine/store.rs lines
82-97): `path`, `writer`, `reader` and `index` are `Arc::clone`d (same
cells), but the counter field is
`AtomicU64::new(self.uncompressed_bytes.load(Ordering::SeqCst))` — a
brand-new cell initialized with a snapshot of the current value. -/
def cloneStore (st : KvStoreHandle) (h : CounterHeap) :
    KvStoreHandle × CounterHeap :=
  (⟨st.writerRef, st.readerRef, st.indexRef, h.nextId⟩,
   ⟨(h.nextId, counterLoad h st.counterCell) :: h.counters, h.nextId + 1⟩)

/-- Model of `KvsEngineType` (src/src/bin/kvs-server.rs lines 15-19). -/
inductive KvsEngineType where
  | Sled
  | Kvs
deriving DecidableEq, Repr

/-- Model of `parse_kv_config` (src/src/bin/kvs-server.rs lines 32-60)
over the content of `config.info`: `recorded` is the engine type stored
in the file (`none` when the file is absent), `engine` the
user-requested one.  The result carries the selected engine and what
gets persisted to `config.info` by this call (`none` when the file
already existed). -/
def parseKvConfig (recorded : Option KvsEngineType)
    (engine : Option KvsEngineType) :
    Except KvsError (KvsEngineType × Option KvsEngineType) :=
  match recorded with
  | some previous_config =>
    match engine with
    | some e =>
      if previous_config ≠ e then .error .WrongEngine
      else .ok (previous_config, none)
    | none => .ok (previous_config, none)
  | none =>
    let new_engine := engine.getD .Kvs
    .ok (new_engine, some new_engine)

/-- Model of `SharedQueueThreadPool`
(src/src/thread_pool/shared_queue.rs lines 58-64): the workers spawned
by `new` and the `Run` messages sitting in the channel (jobs named by
identifiers).  The `Receiver` sits behind an `Arc` held only by the
workers, so with zero workers it is dropped when `new` returns and the
channel is disconnected. -/
structure SharedQueueThreadPool where
  workers : Nat
  queue : List Nat
deriving DecidableEq, Repr

/-- Model of `SharedQueueThreadPool::new` (src/src/thread_pool/
shared_queue.rs lines 58-70): spawn `threads` workers and return `Ok`
unconditionally — there is no failure path for any thread count. -/
def poolNew (threads : Nat) : Except KvsError SharedQueueThreadPool :=
  .ok ⟨threads, []⟩

/-- Model of `SharedQueueThreadPool::spawn` (src/src/thread_pool/
shared_queue.rs lines 72-83): `sender.send(Run(job))` succeeds and
enqueues exactly when some worker still holds the receiver; on a send
error the source only prints (`Err(e) => println!`) — the return type
is `()` either way, so no error ever reaches the caller. -/
def poolSpawn (p : SharedQueueThreadPool) (job : Nat) :
    SharedQueueThreadPool × Unit :=
  if p.workers = 0 then (p, ()) else (⟨p.workers, p.queue ++ [job]⟩, ())

/-- The jobs the workers will ever execute: exactly the `Run` messages
that reached the channel. -/
def poolExecuted (p : SharedQueueThreadPool) : List Nat := p.queue

/-- The log bytes produced by `set "k" "v"` followed by `remove "k"`. -/
def c3File : List Nat := encodeAll [KvRecord.Set "k" "v", KvRecord.Rm "k"]

/-- A `store::KvStore` state holding one live record for key `"k"`. -/
def c4LibState : LibState :=
  ⟨encode (.Set "k" "v"), (encode (.Set "k" "v")).length,
   [("k", ⟨(encode (.Set "k" "v")).length, 0⟩)]⟩

/-- The result of `remove "k"` on `c4LibState` (the `Ok` payload). -/
def c4LibRemoved : LibState :=
  match LibStore.remove c4LibState "k" LibStore.allocOk with
  | .ok s => s
  | .error _ => c4LibState

/-- The engine state after `set "k" "v"` on a fresh store. -/
def c4EngSt : KvStoreState := KvStore.set initState "k" "v"

/-- The result of `remove "k"` on `c4EngSt` (the `Ok` payload). -/
def c4EngRemoved : KvStoreState :=
  match KvStore.remove c4EngSt "k" with
  | .ok s => s
  | .error _ => c4EngSt

/-- An engine state whose index entry for `"k"` points at bytes that
decode to an `Rm` record — exactly the index produced by replaying
`Set "k" "v"; Rm "k"` would, restricted to the tombstone. -/
def c5St : KvStoreState :=
  ⟨encode (.Rm "k"), (encode (.Rm "k")).length,
   [("k", ⟨(encode (.Rm "k")).length, 0⟩)], 0⟩

/-- A value of 1,000,000 characters. -/
def bigValue : String := String.mk (List.replicate 1000000 'a')

/-- The engine state after setting `"k"` to `bigValue` twice: the
second `set` supersedes the first record, so `uncompressed_bytes`
exceeds the 1,000,000-byte compaction threshold of the specification. -/
def c6State : KvStoreState :=
  KvStore.set (KvStore.set initState "k" bigValue) "k" bigValue

/-- A heap with a single counter cell `0` holding `0`. -/
def c7Heap : CounterHeap := ⟨[(0, 0)], 1⟩

/-- A handle whose shared references are cells `10`, `11`, `12`, with
counter cell `0`. -/
def c7Handle : KvStoreHandle := ⟨10, 11, 12, 0⟩

/-- A `store::KvStore` state whose index entry for `"k"` points at a
location that can no longer be read (reading fails with an I/O error,
as for a stale location after the active file was swapped). -/
def c8LibBad : LibState := ⟨[], 0, [("k", ⟨5, 0⟩)]⟩

theorem decStr_append (s : String) (tail : List Nat) :
    decStr (encStr s ++ tail) = some (s, tail) := by
  simp [decStr, encStr, List.take_append, List.drop_append,
    Function.comp_def, Char.ofNat_toNat]

theorem encStr_length_pos (s : String) : 0 < (encStr s).length := by
  simp [encStr]

theorem decodeOne_append (r : KvRecord) (tail : List Nat) :
    decodeOne (encode r ++ tail) = some (r, (encode r).length) := by
  cases r with
  | Set k v =>
    simp only [encode, List.cons_append, List.append_assoc]
    simp only [decodeOne, decStr_append]
    simp [List.length_append]
    omega
  | Rm k =>
    simp only [encode, List.cons_append]
    simp only [decodeOne, decStr_append]
    simp [List.length_append]
    omega

theorem fromSlice_encode (r : KvRecord) : fromSlice (encode r) = some r := by
  have h := decodeOne_append r []
  simp at h
  simp [fromSlice, h]

theorem encode_length_pos (r : KvRecord) : 0 < (encode r).length := by
  cases r <;> simp [encode]

theorem find?_filter_key (idx : Index) (k k' : String) (h : k' ≠ k) :
    ((idx.filter fun e => !(e.1 == k)).find? fun e => e.1 == k')
      = idx.find? fun e => e.1 == k' := by
  induction idx with
  | nil => rfl
  | cons e rest ih =>
    by_cases hk : e.1 = k
    · have h2 : (e.1 == k') = false := by
        rw [beq_eq_false_iff_ne, hk]
        exact fun hc => h hc.symm
      have h3 : (k == k') = false := beq_eq_false_iff_ne.mpr (fun hc => h hc.symm)
      simp [List.filter_cons, hk, List.find?_cons, h2, h3, ih]
    · have h1 : (!(e.1 == k)) = true := by simp [hk]
      by_cases hk' : e.1 = k'
      · simp [List.filter_cons, h1, List.find?_cons, hk', h]
      · have h2 : (e.1 == k') = false := beq_eq_false_iff_ne.mpr hk'
        simp [List.filter_cons, h1, List.find?_cons, h2, ih]

theorem indexLookup_filter_ne (idx : Index) (k k' : String) (h : k' ≠ k) :
    indexLookup (idx.filter (fun e => !(e.1 == k))) k' = indexLookup idx k' := by
  unfold indexLookup
  rw [find?_filter_key idx k k' h]

theorem indexLookup_insert_self (idx : Index) (k : String) (vd : ValueData) :
    indexLookup (indexInsert idx k vd).1 k = some vd := by
  simp [indexInsert, indexLookup, List.find?_cons]

theorem indexLookup_insert_ne (idx : Index) (k k' : String) (vd : ValueData)
    (h : k' ≠ k) :
    indexLookup (indexInsert idx k vd).1 k' = indexLookup idx k' := by
  have h2 : (k == k') = false := beq_eq_false_iff_ne.mpr (fun hc => h hc.symm)
  simp only [indexInsert, indexLookup, List.find?_cons, h2]
  rw [find?_filter_key idx k k' h]

theorem indexLookup_remove_self (idx : Index) (k : String) :
    indexLookup (indexRemove idx k).1 k = none := by
  have hnone : ((idx.filter fun e => !(e.1 == k)).find? fun e => e.1 == k)
      = none := by
    apply List.find?_eq_none.mpr
    intro e he
    have := (List.mem_filter.mp he).2
    simpa using this
  simp [indexRemove, indexLookup, hnone]

theorem indexLookup_remove_ne (idx : Index) (k k' : String) (h : k' ≠ k) :
    indexLookup (indexRemove idx k).1 k' = indexLookup idx k' :=
  indexLookup_filter_ne idx k k' h

theorem encodeAll_append (rs₁ rs₂ : List KvRecord) :
    encodeAll (rs₁ ++ rs₂) = encodeAll rs₁ ++ encodeAll rs₂ := by
  induction rs₁ with
  | nil => rfl
  | cons r rest ih => simp [encodeAll, ih]

theorem length_le_encodeAll (recs : List KvRecord) :
    recs.length ≤ (encodeAll recs).length := by
  induction recs with
  | nil => simp [encodeAll]
  | cons r rest ih =>
    simp only [encodeAll, List.length_cons, List.length_append]
    have := encode_length_pos r
    omega

theorem replayAux_encodeAll (bytes : List Nat) (recs : List KvRecord) :
    ∀ (fuel pos : Nat) (idx : Index), bytes.drop pos = encodeAll recs →
      recs.length < fuel →
      replayAux bytes fuel pos idx = some (replayFold idx pos recs) := by
  induction recs with
  | nil =>
    intro fuel pos idx hdrop hfuel
    match fuel, hfuel with
    | fuel + 1, _ =>
      have hlen : bytes.length ≤ pos := by
        rw [← List.drop_eq_nil_iff]
        simpa [encodeAll] using hdrop
      simp [replayAux, Nat.not_lt.mpr hlen, replayFold]
  | cons r rest ih =>
    intro fuel pos idx hdrop hfuel
    match fuel, hfuel with
    | fuel + 1, hfuel =>
      have hne : bytes.drop pos ≠ [] := by
        rw [hdrop]
        simp only [encodeAll]
        intro hcon
        have h6 := encode_length_pos r
        have h7 := congrArg List.length hcon
        rw [List.length_append] at h7
        simp only [List.length_nil] at h7
        omega
      have hpos : pos < bytes.length := by
        by_contra hc
        exact hne (List.drop_eq_nil_iff.mpr (Nat.le_of_not_lt hc))
      have hdec : decodeOne (bytes.drop pos) = some (r, (encode r).length) := by
        rw [hdrop, encodeAll]
        exact decodeOne_append r (encodeAll rest)
      have hdrop2 : bytes.drop (pos + (encode r).length) = encodeAll rest := by
        have h5 : bytes.drop (pos + (encode r).length)
            = (bytes.drop pos).drop (encode r).length := by
          rw [List.drop_drop]
        rw [h5, hdrop, encodeAll, List.drop_left]
      have hstep := ih fuel (pos + (encode r).length)
        (indexInsert idx r.key ⟨(encode r).length, pos⟩).1 hdrop2
        (by have hl : (r :: rest).length = rest.length + 1 := rfl; omega)
      simp only [replayAux, hpos, if_true, hdec]
      cases r with
      | Set k v => simpa [replayFold, KvRecord.key] using hstep
      | Rm k => simpa [replayFold, KvRecord.key] using hstep

theorem replay_encodeAll (recs : List KvRecord) :
    replay (encodeAll recs) = some (replayFold [] 0 recs) := by
  apply replayAux_encodeAll (encodeAll recs) recs
  · rfl
  · have := length_le_encodeAll recs
    omega

theorem indexLookup_replayFold (recs : List KvRecord) :
    ∀ (idx : Index) (pos : Nat) (k : String),
      indexLookup (replayFold idx pos recs) k
        = match lastRecEntry recs pos k with
          | some e => some e.2
          | none => indexLookup idx k := by
  induction recs with
  | nil => intro idx pos k; simp [replayFold, lastRecEntry]
  | cons r rest ih =>
    intro idx pos k
    simp only [replayFold, lastRecEntry]
    rw [ih]
    cases hlast : lastRecEntry rest (pos + (encode r).length) k with
    | some e => simp
    | none =>
      by_cases hk : r.key = k
      · subst hk
        simp [indexLookup_insert_self]
      · have : k ≠ r.key := fun hc => hk hc.symm
        simp [hk, indexLookup_insert_ne _ _ _ _ this]

theorem lastRecEntry_shift (recs : List KvRecord) :
    ∀ (pos d : Nat) (k : String),
      lastRecEntry recs (pos + d) k
        = (lastRecEntry recs pos k).map
            (fun e => (e.1, ⟨e.2.size, e.2.offset + d⟩)) := by
  induction recs with
  | nil => intro pos d k; rfl
  | cons r rest ih =>
    intro pos d k
    simp only [lastRecEntry]
    have harr : pos + d + (encode r).length = pos + (encode r).length + d := by
      omega
    rw [harr, ih]
    cases hlast : lastRecEntry rest (pos + (encode r).length) k with
    | some e => simp
    | none =>
      by_cases hk : r.key = k <;> simp [hk]

theorem lastRecEntry_slice (recs : List KvRecord) :
    ∀ (k : String) (r : KvRecord) (vd : ValueData),
      lastRecEntry recs 0 k = some (r, vd) →
      r.key = k ∧ vd.size = (encode r).length ∧
        vd.offset + vd.size ≤ (encodeAll recs).length ∧
        ((encodeAll recs).drop vd.offset).take vd.size = encode r := by
  induction recs with
  | nil => intro k r vd h; simp [lastRecEntry] at h
  | cons r₀ rest ih =>
    intro k r vd h
    simp only [lastRecEntry] at h
    rw [show (0 + (encode r₀).length) = ((0 : Nat) + (encode r₀).length) from rfl,
      lastRecEntry_shift rest 0 (encode r₀).length k] at h
    cases hlast : lastRecEntry rest 0 k with
    | some e =>
      rw [hlast] at h
      simp only [Option.map_some'] at h
      cases h
      obtain ⟨h1, h2, h3, h4⟩ := ih k e.1 e.2 (by rw [hlast])
      refine ⟨h1, by simpa using h2, ?_, ?_⟩
      · simp only [encodeAll, List.length_append]
        omega
      · have hd : (encodeAll (r₀ :: rest)).drop (e.2.offset + (encode r₀).length)
            = (encodeAll rest).drop e.2.offset := by
          simp only [encodeAll]
          rw [Nat.add_comm e.2.offset (encode r₀).length, ← List.drop_drop,
            List.drop_left]
        simpa [hd] using h4
    | none =>
      rw [hlast] at h
      simp only [Option.map_none'] at h
      by_cases hk : r₀.key = k
      · rw [if_pos hk] at h
        cases h
        refine ⟨hk, rfl, ?_, ?_⟩
        · simp [encodeAll, List.length_append]
        · simp [encodeAll, List.take_left]
      · rw [if_neg hk] at h
        cases h

theorem lastRecEntry_append_single (recs : List KvRecord) (r : KvRecord) :
    ∀ (pos : Nat) (k : String),
      lastRecEntry (recs ++ [r]) pos k
        = if r.key = k
          then some (r, ⟨(encode r).length, pos + (encodeAll recs).length⟩)
          else lastRecEntry recs pos k := by
  induction recs with
  | nil =>
    intro pos k
    by_cases h : r.key = k <;> simp [lastRecEntry, h, encodeAll]
  | cons r₀ rest ih =>
    intro pos k
    simp only [List.cons_append, lastRecEntry, List.append_eq]
    rw [ih]
    by_cases h : r.key = k
    · simp [h, encodeAll, Nat.add_assoc]
    · simp [h]

theorem lastRec_append_single (recs : List KvRecord) (r : KvRecord) (k : String) :
    lastRec (recs ++ [r]) k = if r.key = k then some r else lastRec recs k := by
  unfold lastRec
  rw [lastRecEntry_append_single]
  by_cases h : r.key = k <;> simp [h]

theorem set_eq (st : KvStoreState) (k v : String) :
    KvStore.set st k v
      = ⟨st.file ++ encode (.Set k v), st.position + (encode (.Set k v)).length,
          (indexInsert st.index k ⟨(encode (.Set k v)).length, st.position⟩).1,
          st.uncompressedBytes
            + (match indexLookup st.index k with
               | some prev => prev.size
               | none => 0)⟩ := by
  simp only [KvStore.set, indexInsert]
  cases indexLookup st.index k <;> rfl

theorem remove_of_lookup_some (st : KvStoreState) (k : String) (vd : ValueData)
    (h : indexLookup st.index k = some vd) :
    KvStore.remove st k
      = .ok ⟨st.file ++ encode (.Rm k), st.position + (encode (.Rm k)).length,
          (indexRemove st.index k).1,
          st.uncompressedBytes + (vd.size + (encode (.Rm k)).length)⟩ := by
  simp only [KvStore.remove, indexRemove, h]

theorem remove_of_lookup_none (st : KvStoreState) (k : String)
    (h : indexLookup st.index k = none) :
    KvStore.remove st k = .error .NonExistantKey := by
  simp only [KvStore.remove, indexRemove, h]

theorem goodState_init : goodState initState (fun _ => none) [] := by
  refine ⟨rfl, rfl, ?_, ?_, ?_⟩
  · intro k v h; cases h
  · intro k _; rfl
  · intro k; simp [lastRec, lastRecEntry]

theorem slice_stable (file ext : List Nat) (off n : Nat)
    (h : off + n ≤ file.length) :
    ((file ++ ext).drop off).take n = (file.drop off).take n := by
  rw [List.drop_append_of_le_length (by omega)]
  rw [List.take_append_of_le_length]
  have := List.length_drop off file
  omega

theorem goodState_get (st : KvStoreState) (m : String → Option String)
    (recs : List KvRecord) (hg : goodState st m recs) (k : String) :
    KvStore.get st k = .ok (m k) := by
  obtain ⟨hfile, hpos, hsome, hnone, hlast⟩ := hg
  cases hm : m k with
  | none =>
    simp [KvStore.get, hnone k hm]
  | some v =>
    obtain ⟨off, hlk, hb, hslice⟩ := hsome k v hm
    have hread : readExactAt st.file off (encode (.Set k v)).length
        = some (encode (.Set k v)) := by
      rw [readExactAt, if_pos hb, hslice]
    simp [KvStore.get, hlk, hread, fromSlice_encode]

theorem goodState_exec (st : KvStoreState) (m : String → Option String)
    (recs : List KvRecord) (hg : goodState st m recs) (op : Op) :
    ∃ recs₂, goodState (exec st op) (specMapStep m op) recs₂ := by
  obtain ⟨hfile, hpos, hsome, hnone, hlast⟩ := hg
  cases op with
  | setOp k v =>
    refine ⟨recs ++ [.Set k v], ?_, ?_, ?_, ?_, ?_⟩
    · simp [exec, set_eq, hfile, encodeAll_append, encodeAll]
    · simp [exec, set_eq, hpos]
    · intro k' v' hm'
      simp only [exec, set_eq]
      by_cases hk : k' = k
      · subst hk
        simp only [specMapStep, if_pos rfl] at hm'
        cases hm'
        refine ⟨st.position, ?_, ?_, ?_⟩
        · simpa using indexLookup_insert_self st.index k'
            ⟨(encode (.Set k' v)).length, st.position⟩
        · simp [List.length_append, hpos]
        · rw [hpos, List.drop_left, List.take_length]
      · simp only [specMapStep, if_neg hk] at hm'
        obtain ⟨off, hlk, hb, hslice⟩ := hsome k' v' hm'
        refine ⟨off, ?_, ?_, ?_⟩
        · simpa using (indexLookup_insert_ne st.index k k'
            ⟨(encode (.Set k v)).length, st.position⟩ hk).trans hlk
        · simp only [List.length_append]
          omega
        · rw [slice_stable _ _ _ _ hb, hslice]
    · intro k' hm'
      simp only [exec, set_eq]
      by_cases hk : k' = k
      · subst hk
        simp [specMapStep] at hm'
      · simp only [specMapStep, if_neg hk] at hm'
        simpa using (indexLookup_insert_ne st.index k k'
          ⟨(encode (.Set k v)).length, st.position⟩ hk).trans (hnone k' hm')
    · intro k'
      by_cases hk : k' = k
      · subst hk
        simp [specMapStep, lastRec_append_single, KvRecord.key]
      · have h5 := hlast k'
        have hkey : KvRecord.key (.Set k v) = k := rfl
        rw [lastRec_append_single, hkey, if_neg (fun hc => hk hc.symm)]
        simpa [specMapStep, if_neg hk] using h5
  | rmOp k =>
    cases hm : m k with
    | some v =>
      obtain ⟨off, hlk, hb, hslice⟩ := hsome k v hm
      have hrm := remove_of_lookup_some st k ⟨(encode (.Set k v)).length, off⟩ hlk
      refine ⟨recs ++ [.Rm k], ?_, ?_, ?_, ?_, ?_⟩
      · simp [exec, hrm, hfile, encodeAll_append, encodeAll]
      · simp [exec, hrm, hpos]
      · intro k' v' hm'
        by_cases hk : k' = k
        · subst hk
          simp [specMapStep] at hm'
        · simp only [specMapStep, if_neg hk] at hm'
          obtain ⟨off', hlk', hb', hslice'⟩ := hsome k' v' hm'
          refine ⟨off', ?_, ?_, ?_⟩
          · simp only [exec, hrm]
            simpa using (indexLookup_remove_ne st.index k k' hk).trans hlk'
          · simp [exec, hrm, List.length_append]
            omega
          · simp only [exec, hrm]
            rw [slice_stable _ _ _ _ hb', hslice']
      · intro k' hm'
        by_cases hk : k' = k
        · subst hk
          simp only [exec, hrm]
          simpa using indexLookup_remove_self st.index k'
        · simp only [specMapStep, if_neg hk] at hm'
          simp only [exec, hrm]
          simpa using (indexLookup_remove_ne st.index k k' hk).trans (hnone k' hm')
      · intro k'
        by_cases hk : k' = k
        · subst hk
          simp [specMapStep, lastRec_append_single, KvRecord.key]
        · have h5 := hlast k'
          have hkey : KvRecord.key (.Rm k) = k := rfl
          rw [lastRec_append_single, hkey, if_neg (fun hc => hk hc.symm)]
          simpa [specMapStep, if_neg hk] using h5
    | none =>
      have hrm := remove_of_lookup_none st k (hnone k hm)
      have hexec : exec st (.rmOp k) = st := by simp [exec, hrm]
      refine ⟨recs, ?_, ?_, ?_, ?_, ?_⟩
      · simpa [hexec]
      · simpa [hexec]
      · intro k' v' hm'
        rw [hexec]
        by_cases hk : k' = k
        · subst hk
          simp [specMapStep] at hm'
        · simp only [specMapStep, if_neg hk] at hm'
          exact hsome k' v' hm'
      · intro k' hm'
        rw [hexec]
        by_cases hk : k' = k
        · subst hk
          exact hnone k' hm
        · simp only [specMapStep, if_neg hk] at hm'
          exact hnone k' hm'
      · intro k'
        by_cases hk : k' = k
        · subst hk
          have h5 := hlast k'
          rw [hm] at h5
          simpa [specMapStep] using h5
        · have h5 := hlast k'
          simpa [specMapStep, if_neg hk] using h5

theorem goodState_runAux (ops : List Op) :
    ∀ (st : KvStoreState) (m : String → Option String) (recs : List KvRecord),
      goodState st m recs →
      ∃ recs₂, goodState (ops.foldl exec st) (ops.foldl specMapStep m) recs₂ := by
  induction ops with
  | nil => intro st m recs h; exact ⟨recs, h⟩
  | cons op rest ih =>
    intro st m recs h
    obtain ⟨recs₂, h₂⟩ := goodState_exec st m recs h op
    exact ih _ _ _ h₂

theorem goodState_runOps (ops : List Op) :
    ∃ recs, goodState (runOps ops) (specMap ops) recs :=
  goodState_runAux ops initState (fun _ => none) [] goodState_init

theorem get_runOps (ops : List Op) (k : String) :
    KvStore.get (runOps ops) k = .ok (specMap ops k) := by
  obtain ⟨recs, hg⟩ := goodState_runOps ops
  exact goodState_get _ _ _ hg k

theorem lastRecEntry_of_lastRec (recs : List KvRecord) (k : String)
    (r : KvRecord) (h : lastRec recs k = some r) :
    ∃ vd, lastRecEntry recs 0 k = some (r, vd) := by
  unfold lastRec at h
  cases he : lastRecEntry recs 0 k with
  | none => rw [he] at h; cases h
  | some e =>
    rw [he] at h
    simp only [Option.map_some'] at h
    cases h
    exact ⟨e.2, rfl⟩

theorem openStore_get_record (recs : List KvRecord) (k : String)
    (r : KvRecord) (h : lastRec recs k = some r) :
    (openStore (encodeAll recs)).map (fun st => KvStore.get st k)
      = some (match r with
              | .Set _ v => .ok (some v)
              | .Rm _ => .ok none) := by
  obtain ⟨vd, he⟩ := lastRecEntry_of_lastRec recs k r h
  obtain ⟨hkey, hsize, hb, hslice⟩ := lastRecEntry_slice recs k r vd he
  rw [openStore, replay_encodeAll]
  simp only [Option.map_some']
  have hlk : indexLookup (replayFold [] 0 recs) k = some vd := by
    rw [indexLookup_replayFold, he]
  have hread : readExactAt (encodeAll recs) vd.offset vd.size = some (encode r) := by
    rw [readExactAt, if_pos hb, hslice]
  cases r with
  | Set k₀ v => simp [KvStore.get, hlk, hread, fromSlice_encode]
  | Rm k₀ => simp [KvStore.get, hlk, hread, fromSlice_encode]

theorem openStore_get_none (recs : List KvRecord) (k : String)
    (h : lastRec recs k = none) :
    (openStore (encodeAll recs)).map (fun st => KvStore.get st k)
      = some (.ok none) := by
  have he : lastRecEntry recs 0 k = none := by
    unfold lastRec at h
    cases he : lastRecEntry recs 0 k with
    | none => rfl
    | some e => rw [he] at h; cases h
  rw [openStore, replay_encodeAll]
  simp only [Option.map_some']
  have hlk : indexLookup (replayFold [] 0 recs) k = none := by
    rw [indexLookup_replayFold, he]
    simp [indexLookup]
  simp [KvStore.get, hlk]

theorem reopen_get (ops : List Op) (k : String) :
    (openStore (runOps ops).file).map (fun st => KvStore.get st k)
      = some (.ok (specMap ops k)) := by
  obtain ⟨recs, hg⟩ := goodState_runOps ops
  obtain ⟨hfile, hpos, hsome, hnone, hlast⟩ := hg
  have h5 := hlast k
  rw [hfile]
  cases hm : specMap ops k with
  | some v =>
    rw [hm] at h5
    rw [openStore_get_record recs k (.Set k v) h5]
  | none =>
    rw [hm] at h5
    cases h5 with
    | inl hn => rw [openStore_get_none recs k hn]
    | inr hr => rw [openStore_get_record recs k (.Rm k) hr]

theorem specMapStep_untouched (m : String → Option String) (op : Op)
    (k : String) (h : op.touches k = false) : specMapStep m op k = m k := by
  cases op with
  | setOp k' v =>
    have h1 : ¬(k' = k) := by simpa [Op.touches] using h
    have h2 : ¬(k = k') := fun hc => h1 hc.symm
    simp [specMapStep, h2]
  | rmOp k' =>
    have h1 : ¬(k' = k) := by simpa [Op.touches] using h
    have h2 : ¬(k = k') := fun hc => h1 hc.symm
    simp [specMapStep, h2]

theorem specMap_untouched_aux (ops : List Op) :
    ∀ (m : String → Option String) (k : String),
      (∀ op ∈ ops, op.touches k = false) →
      ops.foldl specMapStep m k = m k := by
  induction ops with
  | nil => intro m k _; rfl
  | cons op rest ih =>
    intro m k h
    rw [List.foldl_cons]
    rw [ih _ k (fun o ho => h o (List.mem_cons_of_mem _ ho))]
    exact specMapStep_untouched m op k (h op (List.mem_cons_self _ _))

/-- C1: for every key `k` and value `v`, after a successful
`set(k, v)` on a `KvStore` handle, a subsequent `get(k)` on the same
store returns `Ok(Some(v))`, provided no `remove(k)` and no later
`set(k, _)` happened in between (arbitrary operations on other keys
may). -/
theorem c1_set_then_get (pre post : List Op) (k v : String)
    (h : ∀ op ∈ post, op.touches k = false) :
    KvStore.get (runOps (pre ++ Op.setOp k v :: post)) k = .ok (some v) := by
  rw [get_runOps]
  unfold specMap
  rw [List.foldl_append, List.foldl_cons]
  rw [specMap_untouched_aux post _ k h]
  simp [specMapStep]

/-- C1 witness: a concrete run `set "a" "x"; set "k" "v"; rm "a"`
after which `get "k"` returns `Ok(Some "v")`. -/
theorem c1_set_then_get_witness :
    (∀ op ∈ [Op.rmOp "a"], op.touches "k" = false) ∧
      KvStore.get (runOps ([Op.setOp "a" "x"] ++ Op.setOp "k" "v" :: [Op.rmOp "a"])) "k"
        = .ok (some "v") :=
  ⟨by decide, c1_set_then_get [Op.setOp "a" "x"] [Op.rmOp "a"] "k" "v" (by decide)⟩

/-- C2: reopening the database preserves the observable mapping — for
every run of operations from a fresh store and every key `k`, `open`
on the produced log succeeds and the reopened store's `get k` returns
exactly the specification-level value after the run: the last value
set, or `None` when the last operation on `k` was a successful
remove (or `k` was never set). -/
theorem c2_reopen_get (ops : List Op) (k : String) :
    (openStore (runOps ops).file).map (fun st => KvStore.get st k)
      = some (.ok (specMap ops k)) :=
  reopen_get ops k

/-- C3 counterexample: replaying the log `Set "k" "v"; Rm "k"` leaves
an index entry for `"k"` — pointing at the tombstone record — although
the claim says a key whose last record is a tombstone has no entry
after open. -/
theorem c3_cex :
    (openStore c3File).map (fun st => indexLookup st.index "k")
      = some (some ⟨(encode (KvRecord.Rm "k")).length,
                    (encode (KvRecord.Set "k" "v")).length⟩) := by
  rfl

/-- C3 (amended): when `open` replays the log, each decoded record —
`Set` and `Rm` alike — overwrites (or creates) the index entry for its
key with that record's location; consequently after open the index
maps every key appearing in the log, including a key whose last
record is a tombstone, to the location of its last record. -/
theorem c3_amended_replay_inserts (recs : List KvRecord) (k : String) :
    (replay (encodeAll recs)).map (fun idx => indexLookup idx k)
      = some ((lastRecEntry recs 0 k).map (·.2)) := by
  rw [replay_encodeAll]
  simp only [Option.map_some']
  rw [indexLookup_replayFold]
  cases h : lastRecEntry recs 0 k <;> simp [indexLookup]

/-- C4 counterexample: on the `store::KvStore` engine of src/lib.rs
(cited by the claim through `write_command` and `remove`), a
successful `remove "k"` leaves the in-memory index with an entry for
`"k"` (pointing at the freshly appended tombstone), contradicting the
claim that the index contains no entry for the key. -/
theorem c4_cex :
    (LibStore.remove c4LibState "k" LibStore.allocOk).map
        (fun st => (indexLookup st.keyMap "k").isSome) = .ok true := by
  rfl

/-- C4 (amended): after a `remove(k)` returning `Ok(())` a tombstone
has been appended to the active log file in both engines; in
`engine::store::KvStore` the index then contains no entry for `k`,
while in `store::KvStore` (src/lib.rs) `write_command` re-inserts `k`,
so its index entry points at the tombstone record instead of being
absent. -/
theorem c4_amended :
    (∀ (st : KvStoreState) (k : String) (st₂ : KvStoreState),
        KvStore.remove st k = .ok st₂ →
        indexLookup st₂.index k = none ∧ st₂.file = st.file ++ encode (.Rm k))
    ∧ (∀ (lst : LibState) (k : String) (lst₂ : LibState),
        LibStore.remove lst k LibStore.allocOk = .ok lst₂ →
        indexLookup lst₂.keyMap k
            = some ⟨(encode (.Rm k)).length, lst.bytesInLastFile⟩
          ∧ lst₂.activeFile = lst.activeFile ++ encode (.Rm k)) := by
  constructor
  · intro st k st₂ h
    cases hlk : indexLookup st.index k with
    | none =>
      rw [remove_of_lookup_none st k hlk] at h
      cases h
    | some vd =>
      rw [remove_of_lookup_some st k vd hlk] at h
      cases h
      exact ⟨indexLookup_remove_self st.index k, rfl⟩
  · intro lst k lst₂ h
    unfold LibStore.remove at h
    cases hg : LibStore.get lst k with
    | error e => rw [hg] at h; simp at h
    | ok o =>
      cases o with
      | none => rw [hg] at h; simp at h
      | some v =>
        rw [hg] at h
        simp only [LibStore.writeCommand, LibStore.allocOk] at h
        cases h
        exact ⟨indexLookup_insert_self lst.keyMap k
          ⟨(encode (.Rm k)).length, lst.bytesInLastFile⟩, rfl⟩

/-- C4 witness: the amended statement applied to the concrete states
after `set "k" "v"; remove "k"` on each engine. -/
theorem c4_amended_witness :
    (indexLookup c4EngRemoved.index "k" = none
      ∧ c4EngRemoved.file = c4EngSt.file ++ encode (.Rm "k"))
    ∧ (indexLookup c4LibRemoved.keyMap "k"
          = some ⟨(encode (.Rm "k")).length, c4LibState.bytesInLastFile⟩
      ∧ c4LibRemoved.activeFile = c4LibState.activeFile ++ encode (.Rm "k")) :=
  ⟨c4_amended.1 c4EngSt "k" c4EngRemoved (by rfl),
   c4_amended.2 c4LibState "k" c4LibRemoved (by rfl)⟩

/-- C5 counterexample: in `c5St` the index entry for `"k"` points at
bytes that decode to an `Rm` record, yet `get "k"` returns `Ok(None)`
— the `_ => Ok(None)` arm — not a `Serialization` error as the claim
states. -/
theorem c5_cex :
    fromSlice ((c5St.file.drop 0).take (encode (KvRecord.Rm "k")).length)
        = some (.Rm "k")
    ∧ KvStore.get c5St "k" = .ok none := by
  exact ⟨rfl, rfl⟩

/-- C5 (amended): whenever a key's index entry points at in-range
bytes that decode to an `Rm` record, `get` returns `Ok(None)` (neither
a value nor an error). -/
theorem c5_amended (st : KvStoreState) (k : String) (vd : ValueData)
    (r : String) (hlk : indexLookup st.index k = some vd)
    (hb : vd.offset + vd.size ≤ st.file.length)
    (hdec : fromSlice ((st.file.drop vd.offset).take vd.size) = some (.Rm r)) :
    KvStore.get st k = .ok none := by
  have hread : readExactAt st.file vd.offset vd.size
      = some ((st.file.drop vd.offset).take vd.size) := by
    rw [readExactAt, if_pos hb]
  simp [KvStore.get, hlk, hread, hdec]

/-- C5 witness: the amended statement at the concrete state `c5St`. -/
theorem c5_amended_witness : KvStore.get c5St "k" = .ok none :=
  c5_amended c5St "k" ⟨(encode (KvRecord.Rm "k")).length, 0⟩ "k"
    (by rfl) (by decide) (by rfl)

theorem encSet_length (k v : String) :
    (encode (.Set k v)).length = k.data.length + v.data.length + 3 := by
  simp [encode, encStr, List.length_append]
  omega

theorem bigValue_length : bigValue.data.length = 1000000 :=
  List.length_replicate _ _

theorem set_uncompressedBytes (st : KvStoreState) (k v : String) :
    (KvStore.set st k v).uncompressedBytes
      = st.uncompressedBytes
        + (match indexLookup st.index k with
           | some prev => prev.size
           | none => 0) := by
  rw [set_eq]

theorem set_index (st : KvStoreState) (k v : String) :
    (KvStore.set st k v).index
      = (indexInsert st.index k ⟨(encode (.Set k v)).length, st.position⟩).1 := by
  rw [set_eq]

theorem double_set_uncompressedBytes (k v : String) :
    (KvStore.set (KvStore.set initState k v) k v).uncompressedBytes
      = (encode (.Set k v)).length := by
  have hidx : (KvStore.set initState k v).index
      = [(k, ⟨(encode (.Set k v)).length, 0⟩)] := by
    rw [set_index]
    rfl
  have hlk : indexLookup [(k, (⟨(encode (.Set k v)).length, 0⟩ : ValueData))] k
      = some ⟨(encode (.Set k v)).length, 0⟩ := by
    simp [indexLookup, List.find?_cons]
  have hu : (KvStore.set initState k v).uncompressedBytes = 0 := by
    rw [set_uncompressedBytes]
    rfl
  rw [set_uncompressedBytes, hidx]
  simp only [hlk, hu]
  omega

theorem c6c : (encode (.Set "k" bigValue)).length = 1000004 := by
  have hk : "k".data.length = 1 := rfl
  rw [encSet_length, bigValue_length, hk]

/-- C6 evaluated at the failing input: after two `set "k" bigValue`
calls, `uncompressed_bytes` is 1,000,004 — above the specification's
1,000,000-byte threshold — yet `set` never schedules compaction (its
definition contains no compaction call) and `compact_file`, whose body
is commented out in the source, returns `Ok(())` leaving the state,
including the counter, untouched. -/
theorem c6_no_compaction :
    1000000 < c6State.uncompressedBytes
    ∧ KvStore.compactFile c6State = (c6State, .ok ()) := by
  constructor
  · unfold c6State
    rw [double_set_uncompressedBytes, c6c]
    omega
  · rfl

/-- C7 counterexample: cloning shares the writer, reader and index
references, but after `fetch_add 5` through the original handle the
original's counter reads 5 while the clone's counter still reads 0 —
the update is not observed through the clone. -/
theorem c7_cex :
    (cloneStore c7Handle c7Heap).1.writerRef = c7Handle.writerRef
    ∧ (cloneStore c7Handle c7Heap).1.readerRef = c7Handle.readerRef
    ∧ (cloneStore c7Handle c7Heap).1.indexRef = c7Handle.indexRef
    ∧ counterLoad (counterFetchAdd (cloneStore c7Handle c7Heap).2
        c7Handle.counterCell 5) c7Handle.counterCell = 5
    ∧ counterLoad (counterFetchAdd (cloneStore c7Handle c7Heap).2
        c7Handle.counterCell 5) (cloneStore c7Handle c7Heap).1.counterCell = 0 := by
  exact ⟨rfl, rfl, rfl, rfl, rfl⟩

theorem find?_map_bump (l : List (Nat × Nat)) (c cx n : Nat) (hcc : cx ≠ c) :
    ((l.map fun e => if e.1 == c then (e.1, e.2 + n) else e).find?
        fun e => e.1 == cx)
      = l.find? fun e => e.1 == cx := by
  induction l with
  | nil => rfl
  | cons e rest ih =>
    simp only [List.map_cons, List.find?_cons]
    by_cases hec : e.1 = c
    · have h2 : (e.1 == cx) = false :=
        beq_eq_false_iff_ne.mpr (by rw [hec]; exact fun hx => hcc hx.symm)
      have h1 : (e.1 == c) = true := beq_iff_eq.mpr hec
      rw [if_pos h1]
      simp only [h2, ih]
    · have h1 : (e.1 == c) = false := beq_eq_false_iff_ne.mpr hec
      rw [if_neg (by simp [h1])]
      cases hx : (e.1 == cx) with
      | true => simp only [hx]
      | false => simp only [hx]; exact ih

theorem counterLoad_fetchAdd_ne (l : List (Nat × Nat)) (i : Nat)
    (c cx n : Nat) (hcc : cx ≠ c) :
    counterLoad (counterFetchAdd ⟨l, i⟩ c n) cx = counterLoad ⟨l, i⟩ cx := by
  unfold counterFetchAdd counterLoad
  simp only
  rw [find?_map_bump l c cx n hcc]

/-- C7 (amended): cloning an engine handle shares the writer guard,
reader handle and index, but the uncompacted-bytes counter is a fresh
atomic initialized to a snapshot of the original's value; a counter
update made afterwards through the original handle is not observed
through the clone. -/
theorem c7_amended (st : KvStoreHandle) (h : CounterHeap) (n : Nat)
    (hfresh : st.counterCell < h.nextId) :
    (cloneStore st h).1.writerRef = st.writerRef
    ∧ (cloneStore st h).1.readerRef = st.readerRef
    ∧ (cloneStore st h).1.indexRef = st.indexRef
    ∧ (cloneStore st h).1.counterCell ≠ st.counterCell
    ∧ counterLoad (cloneStore st h).2 (cloneStore st h).1.counterCell
        = counterLoad h st.counterCell
    ∧ counterLoad (counterFetchAdd (cloneStore st h).2 st.counterCell n)
          (cloneStore st h).1.counterCell
        = counterLoad (cloneStore st h).2 (cloneStore st h).1.counterCell := by
  refine ⟨rfl, rfl, rfl, ?_, ?_, ?_⟩
  · simp only [cloneStore]
    omega
  · simp [cloneStore, counterLoad, List.find?_cons]
  · exact counterLoad_fetchAdd_ne
      ((h.nextId, counterLoad h st.counterCell) :: h.counters) (h.nextId + 1)
      st.counterCell h.nextId n (by omega)

/-- C7 witness: the amended statement at the concrete handle and heap. -/
theorem c7_amended_witness :
    (cloneStore c7Handle c7Heap).1.writerRef = c7Handle.writerRef
    ∧ (cloneStore c7Handle c7Heap).1.readerRef = c7Handle.readerRef
    ∧ (cloneStore c7Handle c7Heap).1.indexRef = c7Handle.indexRef
    ∧ (cloneStore c7Handle c7Heap).1.counterCell ≠ c7Handle.counterCell
    ∧ counterLoad (cloneStore c7Handle c7Heap).2
          (cloneStore c7Handle c7Heap).1.counterCell
        = counterLoad c7Heap c7Handle.counterCell
    ∧ counterLoad (counterFetchAdd (cloneStore c7Handle c7Heap).2
          c7Handle.counterCell 5) (cloneStore c7Handle c7Heap).1.counterCell
        = counterLoad (cloneStore c7Handle c7Heap).2
            (cloneStore c7Handle c7Heap).1.counterCell :=
  c7_amended c7Handle c7Heap 5 (by decide)

/-- C8 counterexample: in `store::KvStore` (src/lib.rs lines 306-313,
cited by the claim), an I/O error arising inside the `get` performed
by `remove` is not propagated — `remove` returns `NonExistantKey`
instead, replacing the error kind. -/
theorem c8_cex :
    LibStore.get c8LibBad "k" = .error (.IOError "read_exact")
    ∧ LibStore.remove c8LibBad "k" LibStore.allocOk
        = .error .NonExistantKey := by
  exact ⟨rfl, rfl⟩

/-- C8 (amended): in `engine::store::KvStore`, lock-poisoning, encode
and I/O failures inside `set`, `get` and `remove` propagate with their
corresponding error kinds (poisoning and encode failures as
`Serialization`, I/O failures as `Io`), and the all-success runs agree
with the pure operations; but in `store::KvStore` (src/lib.rs), an
error from the internal `get` inside `remove` is replaced by
`NonExistantKey`, and an error from the `alloc_new_file_if_needed`
call inside `write_command` is logged and swallowed — the write still
returns `Ok`. -/
theorem c8_amended (st : KvStoreState) (lst : LibState)
    (key val emsg : String) (b₁ b₂ b₃ b₄ : Bool) (cmd : KvRecord) :
    KvStore.setE ⟨true, b₂, b₃, b₄⟩ st key val
        = .error (.SerializationError "to_vec")
    ∧ KvStore.setE ⟨false, true, b₃, b₄⟩ st key val
        = .error (.SerializationError "lock poisoned")
    ∧ KvStore.setE ⟨false, false, true, b₄⟩ st key val
        = .error (.IOError "write_all")
    ∧ KvStore.setE ⟨false, false, false, b₄⟩ st key val
        = .ok (KvStore.set st key val)
    ∧ KvStore.getE ⟨b₁, b₂, true, b₄⟩ st key
        = (match indexLookup st.index key with
           | some _ => .error (.IOError "read_exact_at")
           | none => .ok none)
    ∧ KvStore.getE ⟨b₁, b₂, false, true⟩ st key
        = (match indexLookup st.index key with
           | some _ => .error (.SerializationError "from_slice")
           | none => .ok none)
    ∧ KvStore.getE ⟨b₁, b₂, false, false⟩ st key = KvStore.get st key
    ∧ KvStore.removeE ⟨b₁, true, b₃, b₄⟩ st key
        = .error (.SerializationError "lock poisoned")
    ∧ KvStore.removeE ⟨true, false, b₃, b₄⟩ st key
        = (match indexLookup st.index key with
           | some _ => .error (.SerializationError "to_vec")
           | none => .error .NonExistantKey)
    ∧ KvStore.removeE ⟨false, false, true, b₄⟩ st key
        = (match indexLookup st.index key with
           | some _ => .error (.IOError "write_all")
           | none => .error .NonExistantKey)
    ∧ KvStore.removeE ⟨false, false, false, b₄⟩ st key = KvStore.remove st key
    ∧ LibStore.remove c8LibBad "k" LibStore.allocOk = .error .NonExistantKey
    ∧ LibStore.writeCommand lst cmd key (fun _ => .error (.IOError emsg))
        = .ok ⟨lst.activeFile ++ encode cmd,
               lst.bytesInLastFile + (encode cmd).length,
               (indexInsert lst.keyMap key
                 ⟨(encode cmd).length, lst.bytesInLastFile⟩).1⟩ := by
  refine ⟨rfl, rfl, rfl, rfl, ?_, ?_, ?_, rfl, ?_, ?_, ?_, rfl, rfl⟩
  · simp only [KvStore.getE]
    cases indexLookup st.index key <;> rfl
  · simp only [KvStore.getE]
    cases indexLookup st.index key <;> rfl
  · simp only [KvStore.getE, KvStore.get]
    cases indexLookup st.index key <;> rfl
  · simp only [KvStore.removeE, indexRemove]
    cases indexLookup st.index key <;> rfl
  · simp only [KvStore.removeE, indexRemove]
    cases indexLookup st.index key <;> rfl
  · simp only [KvStore.removeE, KvStore.remove, indexRemove]
    cases indexLookup st.index key <;> rfl

/-- C9: on server start, a recorded engine choice that disagrees with
the requested one fails with `WrongEngine`; when it agrees or nothing
is requested the recorded choice is used (and nothing is re-persisted);
with no recorded choice the requested engine — defaulting to `Kvs` —
is used and persisted. -/
theorem c9_parse_kv_config :
    (∀ r e, e ≠ r → parseKvConfig (some r) (some e) = .error .WrongEngine)
    ∧ (∀ r, parseKvConfig (some r) (some r) = .ok (r, none))
    ∧ (∀ r, parseKvConfig (some r) none = .ok (r, none))
    ∧ (∀ e, parseKvConfig none e = .ok (e.getD .Kvs, some (e.getD .Kvs))) := by
  refine ⟨?_, ?_, ?_, ?_⟩
  · intro r e h
    have h2 : ¬(r = e) := fun hc => h hc.symm
    simp [parseKvConfig, h2]
  · intro r
    simp [parseKvConfig]
  · intro r
    rfl
  · intro e
    rfl

/-- C9 witness: the concrete cases — `Sled` recorded with `Kvs`
requested fails with `WrongEngine`; agreeing or absent requests keep
the recorded `Sled`; with nothing recorded and nothing requested the
default `Kvs` is chosen and persisted. -/
theorem c9_parse_kv_config_witness :
    parseKvConfig (some KvsEngineType.Sled) (some KvsEngineType.Kvs)
        = .error .WrongEngine
    ∧ parseKvConfig (some KvsEngineType.Sled) (some KvsEngineType.Sled)
        = .ok (KvsEngineType.Sled, none)
    ∧ parseKvConfig (some KvsEngineType.Sled) none
        = .ok (KvsEngineType.Sled, none)
    ∧ parseKvConfig none none
        = .ok (KvsEngineType.Kvs, some KvsEngineType.Kvs) :=
  ⟨c9_parse_kv_config.1 KvsEngineType.Sled KvsEngineType.Kvs (by decide),
   c9_parse_kv_config.2.1 KvsEngineType.Sled,
   c9_parse_kv_config.2.2.1 KvsEngineType.Sled,
   c9_parse_kv_config.2.2.2 none⟩

/-- C10: `SharedQueueThreadPool::new(n)` returns `Ok` for every thread
count including 0; `spawn` never reports an error to its caller; and a
job submitted to a zero-worker pool is accepted but never enqueued —
hence never executed. -/
theorem c10_pool :
    (∀ n, poolNew n = .ok ⟨n, []⟩)
    ∧ (∀ p job, (poolSpawn p job).2 = ())
    ∧ (∀ job, poolExecuted (poolSpawn ⟨0, []⟩ job).1 = []) := by
  refine ⟨fun n => rfl, fun p job => rfl, fun job => rfl⟩

end KvsSpec

